import Mathlib

/-!
Verification of the vote admission and results aggregation engine of the
hockeyMoM server (`src/server.js`, the current revision: vote schema with a
unique `(gameId, voter.token)` index, the `POST /api/games/:id/votes`
handler built on `findOneAndUpdate` upsert, and the
`GET /api/games/:id/results` handler).

Modelling conventions:
- Mongo `ObjectId`s are modelled as `Nat`; an `ObjectId` value present in a
  JSON body is always truthy, so an optional id field is `Option Nat` with
  presence meaning truthiness.
- A JSON field that may be `undefined` (absent) or a non-string value is
  modelled as `Option String`; the source's `typeof x === "string" ? x.trim() : ""`
  becomes `(x.getD "").trim`.
- `localeCompare` in the sort comparators is modelled as the lexicographic
  (codepoint) order on `String`.
- The JS `Map` keyed by moment id is modelled as a list updated at the first
  matching entry; the two agree whenever the moment ids are distinct, which
  Mongo guarantees for generated subdocument ids.
- Game metadata fields never read by these handlers (date, opponents, team
  and club names, team sheet, timestamps) are omitted from the `Game` model.
-/

/-- JS `String.prototype.trim`: drop leading and trailing whitespace.
Written over the character list so that it evaluates in the kernel. -/
def jsTrim (s : String) : String :=
  ⟨((s.data.dropWhile Char.isWhitespace).reverse.dropWhile Char.isWhitespace).reverse⟩

/-- Lexicographic (codepoint) comparison of character lists, the model of
`localeCompare(...) <= 0`. -/
def strLeB : List Char → List Char → Bool
  | [], _ => true
  | _ :: _, [] => false
  | a :: as, b :: bs =>
    if a.toNat < b.toNat then true
    else if b.toNat < a.toNat then false
    else strLeB as bs

/-- The order on strings used by the tally sort comparators. -/
def jsLe (a b : String) : Prop := strLeB a.data b.data = true

instance : DecidableRel jsLe := fun a b => by
  unfold jsLe; infer_instance

theorem strLeB_total : ∀ as bs : List Char, strLeB as bs = true ∨ strLeB bs as = true
  | [], _ => Or.inl rfl
  | _ :: _, [] => Or.inr rfl
  | a :: as, b :: bs => by
    rcases Nat.lt_trichotomy a.toNat b.toNat with h | h | h
    · left; simp [strLeB, h]
    · rcases strLeB_total as bs with ih | ih
      · left; simp [strLeB, h, Nat.lt_irrefl, ih]
      · right; simp [strLeB, h, Nat.lt_irrefl, ih]
    · right; simp [strLeB, h]

theorem strLeB_trans : ∀ as bs cs : List Char,
    strLeB as bs = true → strLeB bs cs = true → strLeB as cs = true
  | [], _, _ => fun _ _ => rfl
  | _ :: _, [], _ => fun hab _ => by simp [strLeB] at hab
  | _ :: _, _ :: _, [] => fun _ hbc => by simp [strLeB] at hbc
  | a :: as, b :: bs, c :: cs => fun hab hbc => by
    simp only [strLeB] at hab hbc ⊢
    by_cases hab1 : a.toNat < b.toNat <;> by_cases hbc1 : b.toNat < c.toNat <;>
      simp [hab1, hbc1] at hab hbc ⊢
    · omega
    · omega
    · omega
    · exact Or.inr ⟨by omega, strLeB_trans as bs cs hab.2 hbc.2⟩

theorem jsLe_total (a b : String) : jsLe a b ∨ jsLe b a :=
  strLeB_total a.data b.data

theorem jsLe_trans {a b c : String} (hab : jsLe a b) (hbc : jsLe b c) : jsLe a c :=
  strLeB_trans a.data b.data c.data hab hbc

/-- A champagne moment subdocument of a game: `{ _id, text }`. -/
structure Moment where
  id : Nat
  text : String
  deriving DecidableEq, Repr

/-- The part of a Game document read by the vote and results handlers. -/
structure Game where
  id : Nat
  status : String
  champagneMoments : List Moment
  deriving DecidableEq, Repr

/-- A stored mom/dod nomination subdocument: `{ player, comment }`. -/
structure Nomination where
  player : String
  comment : String
  deriving DecidableEq, Repr

/-- A stored champagne-moment selection subdocument: `{ eventId, comment }`. -/
structure MomentSel where
  eventId : Nat
  comment : String
  deriving DecidableEq, Repr

/-- A stored Vote document. `mom`, `dod`, `champagneMoment` are `Option`
because `$unset` removes the subdocument. -/
structure Vote where
  gameId : Nat
  voterName : String
  voterToken : String
  mom : Option Nomination
  dod : Option Nomination
  champagneMoment : Option MomentSel
  deriving DecidableEq, Repr

/-- A mom/dod entry of a request body; fields may be absent or non-string. -/
structure NomInput where
  player : Option String
  comment : Option String
  deriving DecidableEq, Repr

/-- The `champagneMoment` entry of a request body. -/
structure MomentInput where
  eventId : Option Nat
  textIfNew : Option String
  comment : Option String
  deriving DecidableEq, Repr

/-- A `POST /api/games/:id/votes` request body. A `none` category field is a
field absent from the JSON body (`undefined`). -/
structure VoteRequest where
  voterName : Option String
  voterToken : Option String
  mom : Option NomInput
  dod : Option NomInput
  champagneMoment : Option MomentInput
  deriving DecidableEq, Repr

/-- `formatNomination` from the vote handler: trim the player name; a blank
or absent name means no nomination; otherwise keep the trimmed player and
trimmed comment. -/
def formatNomination : Option NomInput → Option Nomination
  | none => none
  | some entry =>
    let player := jsTrim (entry.player.getD "")
    if player = "" then none
    else some { player := player, comment := jsTrim (entry.comment.getD "") }

/-- What the update document does to one optional Vote field: put it in
`$set`, put it in `$unset`, or mention it in neither. -/
inductive FieldOp (α : Type) where
  | set (a : α)
  | clear
  | keep
  deriving DecidableEq, Repr

/-- Mongo semantics of one field operation applied to the stored value. -/
def FieldOp.applyTo {α : Type} (op : FieldOp α) (old : Option α) : Option α :=
  match op with
  | .set a => some a
  | .clear => none
  | .keep => old

/-- The update document built by the vote handler (`updateDoc` plus
`unsetDoc`); in the source each category field occurs in at most one of
`$set` and `$unset`, so one `FieldOp` per field is faithful. -/
structure UpdateDoc where
  voterName : String
  voterToken : String
  gameId : Nat
  momOp : FieldOp Nomination
  dodOp : FieldOp Nomination
  champagneOp : FieldOp MomentSel
  deriving DecidableEq, Repr

/-- Applying the update document to a matched Vote document. -/
def applyUpdate (u : UpdateDoc) (v : Vote) : Vote :=
  { gameId := u.gameId
    voterName := u.voterName
    voterToken := u.voterToken
    mom := u.momOp.applyTo v.mom
    dod := u.dodOp.applyTo v.dod
    champagneMoment := u.champagneOp.applyTo v.champagneMoment }

/-- The document created by an upsert when no Vote matched: the query key
fields and the `$set` fields. -/
def initFromUpdate (u : UpdateDoc) : Vote :=
  { gameId := u.gameId
    voterName := u.voterName
    voterToken := u.voterToken
    mom := u.momOp.applyTo none
    dod := u.dodOp.applyTo none
    champagneMoment := u.champagneOp.applyTo none }

/-- Replace the first element satisfying `p` by its image under `f`. -/
def replaceFirst {α : Type} (p : α → Bool) (f : α → α) : List α → List α
  | [] => []
  | x :: xs => if p x then f x :: xs else x :: replaceFirst p f xs

/-- The upsert query key `{ gameId, "voter.token" }`. -/
def voteKeyMatch (gid : Nat) (tok : String) (v : Vote) : Bool :=
  v.gameId == gid && v.voterToken == tok

/-- `Vote.findOneAndUpdate({gameId, "voter.token"}, updateDoc, {upsert, after})`:
update the matched document in place, or insert a fresh one; returns the
post-update document and the new store. -/
def findOneAndUpdateVote (votes : List Vote) (gid : Nat) (tok : String)
    (u : UpdateDoc) : Vote × List Vote :=
  match votes.find? (voteKeyMatch gid tok) with
  | some v => (applyUpdate u v, replaceFirst (voteKeyMatch gid tok) (applyUpdate u) votes)
  | none => (initFromUpdate u, votes ++ [initFromUpdate u])

/-- The champagne-moment branch of the vote handler (the body of
`if (champagneMoment !== undefined)`): trim `textIfNew`; when non-blank,
push a new moment onto the game and remember its id; a supplied `eventId`
then overwrites that id; store `{eventId, comment}` when an id resulted,
otherwise mark the field for `$unset`. Returns the field operation, the
game's updated moment list, and the next fresh id. -/
def resolveChampagne (cm : MomentInput) (moments : List Moment) (nextId : Nat) :
    FieldOp MomentSel × List Moment × Nat :=
  let newText := jsTrim (cm.textIfNew.getD "")
  let appended : Option Nat × List Moment × Nat :=
    if newText = "" then (none, moments, nextId)
    else (some nextId, moments ++ [{ id := nextId, text := newText }], nextId + 1)
  let eventId : Option Nat :=
    match cm.eventId with
    | some e => some e
    | none => appended.1
  match eventId with
  | some e => (.set { eventId := e, comment := jsTrim (cm.comment.getD "") }, appended.2.1, appended.2.2)
  | none => (.clear, appended.2.1, appended.2.2)

/-- The persistent state the two handlers touch: the game collection, the
vote collection, and a fresh-id source standing for ObjectId generation. -/
structure St where
  games : List Game
  votes : List Vote
  nextId : Nat
  deriving DecidableEq, Repr

/-- Outcome of the vote handler, by response: `ok` is the JSON vote,
`notFound` the 404, `votingClosed` the 403, `validationError` the 400. -/
inductive SubmitResult where
  | ok (v : Vote)
  | notFound
  | votingClosed
  | validationError
  deriving DecidableEq, Repr

/-- `Game.findById` over the game collection. -/
def findGame (games : List Game) (gid : Nat) : Option Game :=
  games.find? (fun g => g.id == gid)

/-- Truthiness of `voter?.token` (a JSON string): present and non-empty. -/
def tokenPresent : Option String → Bool
  | some s => s != ""
  | none => false

/-- The field operation a mom/dod entry of the request contributes: absent
(`undefined`) touches nothing; present goes through `formatNomination` into
`$set` or `$unset`. -/
def categoryOp (entry : Option NomInput) : FieldOp Nomination :=
  match entry with
  | none => .keep
  | some _ =>
    match formatNomination entry with
    | some n => .set n
    | none => .clear

/-- The champagne-moment field operation: absent touches nothing; present
goes through `resolveChampagne`, possibly growing the game's moment list. -/
def champagneOutcome (entry : Option MomentInput) (moments : List Moment)
    (nextId : Nat) : FieldOp MomentSel × List Moment × Nat :=
  match entry with
  | none => (.keep, moments, nextId)
  | some cm => resolveChampagne cm moments nextId

/-- The single update document (the source's `updateDoc` + `unsetDoc`)
built from the request: trimmed voter identity, the game key, one field
operation per category. -/
def buildUpdateDoc (req : VoteRequest) (game : Game) (champOp : FieldOp MomentSel) :
    UpdateDoc :=
  { voterName := jsTrim (req.voterName.getD "")
    voterToken := req.voterToken.getD ""
    gameId := game.id
    momOp := categoryOp req.mom
    dodOp := categoryOp req.dod
    champagneOp := champOp }

/-- The write phase of the vote handler, after all validation passed:
resolve the champagne category (saving the game when it grew), build the
single update document, and perform one upsert keyed on
`(gameId, voter.token)`. -/
def admitVote (st : St) (game : Game) (gid : Nat) (req : VoteRequest) :
    SubmitResult × St :=
  let champRes := champagneOutcome req.champagneMoment game.champagneMoments st.nextId
  let game' : Game := { game with champagneMoments := champRes.2.1 }
  let games' := replaceFirst (fun g => g.id == gid) (fun _ => game') st.games
  let u := buildUpdateDoc req game champRes.1
  let res := findOneAndUpdateVote st.votes game.id (req.voterToken.getD "") u
  (.ok res.1, { games := games', votes := res.2, nextId := champRes.2.2 })

/-- The `POST /api/games/:id/votes` handler: look up the game, reject when
closed, validate the voter, then run the write phase `admitVote`. -/
def submitVote (st : St) (gid : Nat) (req : VoteRequest) : SubmitResult × St :=
  match findGame st.games gid with
  | none => (.notFound, st)
  | some game =>
    if game.status = "closed" then (.votingClosed, st)
    else if !(tokenPresent req.voterToken) || jsTrim (req.voterName.getD "") == "" then
      (.validationError, st)
    else admitVote st game gid req

/-- The vote route's catch block: a duplicate-key error (Mongo code 11000)
is answered with status 409 "Already voted"; anything else with 500. -/
def voteCatchHandler (code : Option Nat) (message : String) : Nat × String :=
  if code == some 11000 then (409, "Already voted")
  else (500, message)

/-- An entry of the mom/dod tally built by `buildTally` in the results
handler: `{ player, count, comments }`. -/
structure TallyEntry where
  player : String
  count : Nat
  comments : List String
  deriving DecidableEq, Repr

/-- Push a trimmed comment when non-blank, keeping arrival order. -/
def pushComment (comments : List String) (c : String) : List String :=
  if c = "" then comments else comments ++ [c]

/-- One loop iteration of `buildTally`: skip votes without a truthy player
in the category; otherwise create or update that player's entry in the
results map (modelled as a list keyed by player, updated at the first
match, which is unique). -/
def tallyStep (field : Vote → Option Nomination) (acc : List TallyEntry)
    (v : Vote) : List TallyEntry :=
  match field v with
  | none => acc
  | some entry =>
    if entry.player = "" then acc
    else
      let c := jsTrim entry.comment
      if (acc.find? (fun e => e.player == entry.player)).isSome then
        replaceFirst (fun e => e.player == entry.player)
          (fun e => { e with count := e.count + 1, comments := pushComment e.comments c }) acc
      else
        acc ++ [{ player := entry.player, count := 1, comments := pushComment [] c }]

/-- The sort comparator of `buildTally`: count descending, ties by
ascending player name (`localeCompare` modelled as lexicographic order). -/
def tallyOrder (a b : TallyEntry) : Prop :=
  b.count < a.count ∨ (a.count = b.count ∧ jsLe a.player b.player)

instance : DecidableRel tallyOrder := fun a b => by
  unfold tallyOrder; infer_instance

instance : IsTotal TallyEntry tallyOrder where
  total a b := by
    unfold tallyOrder
    rcases Nat.lt_trichotomy a.count b.count with h | h | h
    · exact Or.inr (Or.inl h)
    · rcases jsLe_total a.player b.player with hp | hp
      · exact Or.inl (Or.inr ⟨h, hp⟩)
      · exact Or.inr (Or.inr ⟨h.symm, hp⟩)
    · exact Or.inl (Or.inl h)

instance : IsTrans TallyEntry tallyOrder where
  trans a b c hab hbc := by
    unfold tallyOrder at *
    rcases hab with hab | ⟨hab, hab'⟩ <;> rcases hbc with hbc | ⟨hbc, hbc'⟩
    · exact Or.inl (hbc.trans hab)
    · exact Or.inl (hbc ▸ hab)
    · exact Or.inl (hab ▸ hbc)
    · exact Or.inr ⟨hab.trans hbc, jsLe_trans hab' hbc'⟩

/-- `buildTally` from the results handler: fold the votes of the game into
a per-player map, then sort by the comparator. -/
def buildTally (field : Vote → Option Nomination) (votes : List Vote) :
    List TallyEntry :=
  List.insertionSort tallyOrder (votes.foldl (tallyStep field) [])

/-- An entry of the champagne-moment results: `{ _id, text, votes, comments }`. -/
structure ChampEntry where
  id : Nat
  text : String
  votes : Nat
  comments : List String
  deriving DecidableEq, Repr

/-- The zero-vote seed entries, one per moment of the game. -/
def champInit (g : Game) : List ChampEntry :=
  g.champagneMoments.map (fun m => { id := m.id, text := m.text, votes := 0, comments := [] })

/-- One loop iteration of the champagne tally: a vote without a moment
selection is skipped; one whose `eventId` matches no entry is skipped
(`if (!entry) continue`, here `replaceFirst` of no match is the identity);
otherwise the matching entry's count grows and a non-blank trimmed comment
is appended. -/
def champStep (acc : List ChampEntry) (v : Vote) : List ChampEntry :=
  match v.champagneMoment with
  | none => acc
  | some sel =>
    replaceFirst (fun e => e.id == sel.eventId)
      (fun e => { e with votes := e.votes + 1, comments := pushComment e.comments (jsTrim sel.comment) }) acc

/-- The sort comparator of the champagne results: votes descending, ties by
ascending moment text (`localeCompare` modelled as lexicographic order). -/
def champOrder (a b : ChampEntry) : Prop :=
  b.votes < a.votes ∨ (a.votes = b.votes ∧ jsLe a.text b.text)

instance : DecidableRel champOrder := fun a b => by
  unfold champOrder; infer_instance

instance : IsTotal ChampEntry champOrder where
  total a b := by
    unfold champOrder
    rcases Nat.lt_trichotomy a.votes b.votes with h | h | h
    · exact Or.inr (Or.inl h)
    · rcases jsLe_total a.text b.text with hp | hp
      · exact Or.inl (Or.inr ⟨h, hp⟩)
      · exact Or.inr (Or.inr ⟨h.symm, hp⟩)
    · exact Or.inl (Or.inl h)

instance : IsTrans ChampEntry champOrder where
  trans a b c hab hbc := by
    unfold champOrder at *
    rcases hab with hab | ⟨hab, hab'⟩ <;> rcases hbc with hbc | ⟨hbc, hbc'⟩
    · exact Or.inl (hbc.trans hab)
    · exact Or.inl (hbc ▸ hab)
    · exact Or.inl (hab ▸ hbc)
    · exact Or.inr ⟨hab.trans hbc, jsLe_trans hab' hbc'⟩

/-- The champagne-moment section of the results handler: seed every moment
of the game with zero votes, fold the votes over the seeds, sort. -/
def champagneResults (g : Game) (votes : List Vote) : List ChampEntry :=
  List.insertionSort champOrder (votes.foldl champStep (champInit g))

/-- How many stored Votes carry the key `(gid, tok)`. -/
def keyCount (votes : List Vote) (gid : Nat) (tok : String) : Nat :=
  votes.countP (voteKeyMatch gid tok)

/-- The unique-index invariant of `voteSchema.index({gameId, "voter.token"}, {unique})`:
at most one stored Vote per `(gameId, voter.token)` pair. -/
def UniqueVoteKeys (votes : List Vote) : Prop :=
  ∀ gid tok, keyCount votes gid tok ≤ 1

/-- The player name a vote carries in one category; `""` when the category
is absent, matching the falsy check `if (!player) continue`. -/
def nomPlayer : Option Nomination → String
  | none => ""
  | some n => n.player

/-- Whether a vote's champagne selection references moment id `i`. -/
def voteSelectsB (i : Nat) (v : Vote) : Bool :=
  match v.champagneMoment with
  | some sel => sel.eventId == i
  | none => false

/-- The count the tally accumulator currently holds for player `p`
(0 when no entry exists yet). -/
def entryCount (acc : List TallyEntry) (p : String) : Nat :=
  match acc.find? (fun e => e.player == p) with
  | some e => e.count
  | none => 0

/-- The vote count the champagne accumulator currently holds for moment id
`i` (0 when no entry exists). -/
def champEntryVotes (acc : List ChampEntry) (i : Nat) : Nat :=
  match acc.find? (fun e => e.id == i) with
  | some e => e.votes
  | none => 0

/-- Fixture: an open game with no moments. -/
def exOpenGame : Game := { id := 1, status := "open", champagneMoments := [] }

/-- Fixture: a closed game. -/
def exClosedGame : Game := { id := 2, status := "closed", champagneMoments := [] }

/-- Fixture: a state holding the open and the closed game and no votes. -/
def exSt : St := { games := [exOpenGame, exClosedGame], votes := [], nextId := 5 }

/-- Fixture: a ballot that nominates mom `"A"` only. -/
def exReqMomA : VoteRequest :=
  { voterName := some "Tim"
    voterToken := some "tok1"
    mom := some { player := some "A", comment := some " solid " }
    dod := none
    champagneMoment := none }

/-- Fixture: a ballot from the same voter that nominates dod `"B"` only. -/
def exReqDodB : VoteRequest :=
  { voterName := some "Tim"
    voterToken := some "tok1"
    mom := none
    dod := some { player := some "B", comment := none }
    champagneMoment := none }

/-- Fixture: a ballot from the same voter clearing mom and the moment. -/
def exReqClear : VoteRequest :=
  { voterName := some "Tim"
    voterToken := some "tok1"
    mom := some { player := some "  ", comment := some "x" }
    dod := none
    champagneMoment := some { eventId := none, textIfNew := some "   ", comment := some "y" } }

/-- Fixture: a ballot carrying both an existing moment id and new text. -/
def exReqBoth : VoteRequest :=
  { voterName := some "Tim"
    voterToken := some "tok1"
    mom := none
    dod := none
    champagneMoment := some { eventId := some 3, textIfNew := some " great goal ", comment := none } }

/-- Fixture: a ballot carrying only a dangling moment id. -/
def exReqDangling : VoteRequest :=
  { voterName := some "Tim"
    voterToken := some "tok1"
    mom := none
    dod := none
    champagneMoment := some { eventId := some 42, textIfNew := none, comment := none } }

/-- Fixture: a ballot carrying only new moment text. -/
def exReqNewText : VoteRequest :=
  { voterName := some "Tim"
    voterToken := some "tok1"
    mom := none
    dod := none
    champagneMoment := some { eventId := none, textIfNew := some " top save ", comment := none } }

/-- Fixture: a vote for game 1 nominating the given mom player. -/
def exMomVote (tok p : String) : Vote :=
  { gameId := 1
    voterName := "x"
    voterToken := tok
    mom := some { player := p, comment := "" }
    dod := none
    champagneMoment := none }

/-- Fixture: a game with three moments for the champagne tally. -/
def exGame3 : Game :=
  { id := 7
    status := "open"
    champagneMoments := [{ id := 10, text := "c" }, { id := 11, text := "a" }, { id := 12, text := "b" }] }

/-- Fixture: a vote for game 7 selecting moment `e`. -/
def exSelVote (tok : String) (e : Nat) : Vote :=
  { gameId := 7
    voterName := "x"
    voterToken := tok
    mom := none
    dod := none
    champagneMoment := some { eventId := e, comment := " wow " } }

/-- Fixture: the state after `exReqMomA` was submitted to game 1. -/
def exStAfterMomA : St := (submitVote exSt 1 exReqMomA).2

/-- Fixture: the stored vote after `exReqMomA` alone. -/
def exVoteMomA : Vote :=
  { gameId := 1
    voterName := "Tim"
    voterToken := "tok1"
    mom := some { player := "A", comment := "solid" }
    dod := none
    champagneMoment := none }

/-- Fixture: the stored vote after `exReqMomA` then `exReqDodB`. -/
def exVoteBoth : Vote :=
  { gameId := 1
    voterName := "Tim"
    voterToken := "tok1"
    mom := some { player := "A", comment := "solid" }
    dod := some { player := "B", comment := "" }
    champagneMoment := none }

/-- Fixture: the state after `exReqMomA` then `exReqDodB`. -/
def exStBoth : St :=
  { games := [exOpenGame, exClosedGame], votes := [exVoteBoth], nextId := 5 }

/-- Fixture: the stored vote after `exReqMomA` then `exReqClear`. -/
def exVoteCleared : Vote :=
  { gameId := 1
    voterName := "Tim"
    voterToken := "tok1"
    mom := none
    dod := none
    champagneMoment := none }

/-- Fixture: the state after `exReqMomA` then `exReqClear`. -/
def exStCleared : St :=
  { games := [exOpenGame, exClosedGame], votes := [exVoteCleared], nextId := 5 }

theorem replaceFirst_of_forall_not {α : Type} (p : α → Bool) (f : α → α) :
    ∀ l : List α, (∀ x ∈ l, p x = false) → replaceFirst p f l = l
  | [], _ => rfl
  | x :: xs, h => by
    have hx := h x (List.mem_cons_self x xs)
    rw [replaceFirst, if_neg (by simp [hx])]
    rw [replaceFirst_of_forall_not p f xs fun y hy => h y (List.mem_cons_of_mem x hy)]

theorem countP_replaceFirst {α : Type} (p q : α → Bool) (f : α → α) :
    ∀ l : List α, (∀ x ∈ l, p x = true → q (f x) = q x) →
      (replaceFirst p f l).countP q = l.countP q
  | [], _ => rfl
  | x :: xs, h => by
    cases hx : p x with
    | true =>
      rw [replaceFirst, if_pos hx, List.countP_cons, List.countP_cons,
        h x (List.mem_cons_self x xs) hx]
    | false =>
      rw [replaceFirst, if_neg (by simp [hx]), List.countP_cons, List.countP_cons,
        countP_replaceFirst p q f xs fun y hy => h y (List.mem_cons_of_mem x hy)]

theorem map_replaceFirst {α β : Type} (p : α → Bool) (f : α → α) (g : α → β)
    (hg : ∀ x, g (f x) = g x) :
    ∀ l : List α, (replaceFirst p f l).map g = l.map g
  | [] => rfl
  | x :: xs => by
    cases hx : p x with
    | true => rw [replaceFirst, if_pos hx, List.map_cons, List.map_cons, hg x]
    | false =>
      rw [replaceFirst, if_neg (by simp [hx]), List.map_cons, List.map_cons,
        map_replaceFirst p f g hg xs]

theorem mem_replaceFirst_of_find? {α : Type} (p : α → Bool) (f : α → α) :
    ∀ (l : List α) (x : α), l.find? p = some x → f x ∈ replaceFirst p f l
  | [], x, h => by simp [List.find?] at h
  | y :: ys, x, h => by
    cases hy : p y with
    | true =>
      rw [List.find?_cons_of_pos _ hy, Option.some.injEq] at h
      rw [replaceFirst, if_pos hy, h]
      exact List.mem_cons_self (f x) ys
    | false =>
      rw [List.find?_cons_of_neg _ (by simp [hy])] at h
      rw [replaceFirst, if_neg (by simp [hy])]
      exact List.mem_cons_of_mem y (mem_replaceFirst_of_find? p f ys x h)

theorem mem_of_mem_replaceFirst {α : Type} (p : α → Bool) (f : α → α) :
    ∀ (l : List α) (x : α), x ∈ replaceFirst p f l → x ∈ l ∨ ∃ y ∈ l, x = f y
  | [], x, h => by simp [replaceFirst] at h
  | y :: ys, x, h => by
    cases hy : p y with
    | true =>
      rw [replaceFirst, if_pos hy, List.mem_cons] at h
      rcases h with h | h
      · exact Or.inr ⟨y, List.mem_cons_self y ys, h⟩
      · exact Or.inl (List.mem_cons_of_mem y h)
    | false =>
      rw [replaceFirst, if_neg (by simp [hy]), List.mem_cons] at h
      rcases h with h | h
      · exact Or.inl (h ▸ List.mem_cons_self y ys)
      · rcases mem_of_mem_replaceFirst p f ys x h with h | ⟨z, hz, hx⟩
        · exact Or.inl (List.mem_cons_of_mem y h)
        · exact Or.inr ⟨z, List.mem_cons_of_mem y hz, hx⟩

theorem find?_replaceFirst_self {α : Type} (p : α → Bool) (f : α → α) :
    ∀ (l : List α) (x : α), l.find? p = some x → p (f x) = true →
      (replaceFirst p f l).find? p = some (f x)
  | [], x, h, _ => by simp [List.find?] at h
  | y :: ys, x, h, hfx => by
    cases hy : p y with
    | true =>
      rw [List.find?_cons_of_pos _ hy, Option.some.injEq] at h
      rw [replaceFirst, if_pos hy, h, List.find?_cons_of_pos _ hfx]
    | false =>
      rw [List.find?_cons_of_neg _ (by simp [hy])] at h
      rw [replaceFirst, if_neg (by simp [hy]), List.find?_cons_of_neg _ (by simp [hy])]
      exact find?_replaceFirst_self p f ys x h hfx

theorem find?_replaceFirst_other {α : Type} (p q : α → Bool) (f : α → α) :
    ∀ (l : List α) (x : α), l.find? p = some x → q x = false → q (f x) = false →
      (replaceFirst p f l).find? q = l.find? q
  | [], x, h, _, _ => by simp [List.find?] at h
  | y :: ys, x, h, hqx, hqfx => by
    cases hy : p y with
    | true =>
      rw [List.find?_cons_of_pos _ hy, Option.some.injEq] at h
      rw [replaceFirst, if_pos hy, h, List.find?_cons_of_neg _ (by simp [hqfx]),
        List.find?_cons_of_neg _ (by simp [hqx])]
    | false =>
      rw [List.find?_cons_of_neg _ (by simp [hy])] at h
      rw [replaceFirst, if_neg (by simp [hy])]
      cases hqy : q y with
      | true => rw [List.find?_cons_of_pos _ hqy, List.find?_cons_of_pos _ hqy]
      | false =>
        rw [List.find?_cons_of_neg _ (by simp [hqy]), List.find?_cons_of_neg _ (by simp [hqy])]
        exact find?_replaceFirst_other p q f ys x h hqx hqfx

theorem filter_eq_singleton_of_countP {α : Type} (q : α → Bool) :
    ∀ (l : List α) (v : α), l.countP q = 1 → v ∈ l → q v = true → l.filter q = [v]
  | [], v, _, hv, _ => absurd hv (List.not_mem_nil v)
  | x :: xs, v, hc, hv, hq => by
    by_cases hx : q x = true
    · have hxs : xs.countP q = 0 := by
        rw [List.countP_cons, if_pos hx] at hc
        omega
      have hnone : ∀ a ∈ xs, ¬ q a = true := List.countP_eq_zero.mp hxs
      have hvx : v = x := by
        rcases List.mem_cons.mp hv with h | h
        · exact h
        · exact absurd hq (hnone v h)
      rw [List.filter_cons_of_pos hx, List.filter_eq_nil_iff.mpr hnone, hvx]
    · have hvxs : v ∈ xs := by
        rcases List.mem_cons.mp hv with h | h
        · exact absurd (h ▸ hq) hx
        · exact h
      rw [List.filter_cons_of_neg (by simp [hx])]
      refine filter_eq_singleton_of_countP q xs v ?_ hvxs hq
      rw [List.countP_cons, if_neg (by simp [hx])] at hc
      omega

theorem submitVote_eq_admitVote (st : St) (gid : Nat) (req : VoteRequest) (g : Game)
    (hfind : findGame st.games gid = some g)
    (hopen : ¬ g.status = "closed")
    (htok : tokenPresent req.voterToken = true)
    (hname : ¬ jsTrim (req.voterName.getD "") = "") :
    submitVote st gid req = admitVote st g gid req := by
  unfold submitVote
  rw [hfind]
  simp [hopen, htok, hname]

theorem resolveChampagne_newText (cm : MomentInput) (ms : List Moment) (n : Nat)
    (htext : ¬ jsTrim (cm.textIfNew.getD "") = "") :
    resolveChampagne cm ms n =
      (.set { eventId := cm.eventId.getD n, comment := jsTrim (cm.comment.getD "") },
       ms ++ [{ id := n, text := jsTrim (cm.textIfNew.getD "") }], n + 1) := by
  unfold resolveChampagne
  simp only [if_neg htext]
  cases cm.eventId <;> simp

theorem findOneAndUpdateVote_found (votes : List Vote) (gid : Nat) (tok : String)
    (u : UpdateDoc) (w : Vote) (h : votes.find? (voteKeyMatch gid tok) = some w) :
    findOneAndUpdateVote votes gid tok u =
      (applyUpdate u w, replaceFirst (voteKeyMatch gid tok) (applyUpdate u) votes) := by
  unfold findOneAndUpdateVote
  rw [h]

theorem findOneAndUpdateVote_not_found (votes : List Vote) (gid : Nat) (tok : String)
    (u : UpdateDoc) (h : votes.find? (voteKeyMatch gid tok) = none) :
    findOneAndUpdateVote votes gid tok u =
      (initFromUpdate u, votes ++ [initFromUpdate u]) := by
  unfold findOneAndUpdateVote
  rw [h]

theorem findOneAndUpdateVote_fst_champagne (votes : List Vote) (gid : Nat)
    (tok : String) (u : UpdateDoc) (sel : MomentSel) (h : u.champagneOp = .set sel) :
    (findOneAndUpdateVote votes gid tok u).1.champagneMoment = some sel := by
  unfold findOneAndUpdateVote
  cases hf : votes.find? (voteKeyMatch gid tok) <;>
    simp [applyUpdate, initFromUpdate, h, FieldOp.applyTo]

/-- C5: for every game whose status is "closed", every submitVote call for
that game — also a first-ever submission — fails with VotingClosed and
changes nothing: the state (games, votes, id source) is returned intact,
so no Vote is created or amended and no Moment is appended. -/
theorem submitVote_closed_rejects (st : St) (gid : Nat) (req : VoteRequest) (g : Game)
    (hfind : findGame st.games gid = some g) (hclosed : g.status = "closed") :
    submitVote st gid req = (.votingClosed, st) := by
  unfold submitVote
  rw [hfind]
  simp [hclosed]

theorem submitVote_closed_rejects_witness :
    findGame exSt.games 2 = some exClosedGame ∧
    exClosedGame.status = "closed" ∧
    submitVote exSt 2 exReqMomA = (.votingClosed, exSt) :=
  ⟨by decide, by decide,
    submitVote_closed_rejects exSt 2 exReqMomA exClosedGame (by decide) (by decide)⟩

/-- C3 counterexample: when the store reports a duplicate-key race (error
code 11000), the vote route answers with HTTP status 409 "Already voted" —
an error status (at least 400) surfaced to the end user — instead of
retrying the write as an amendment. -/
theorem voteConflict_surfaces_error_cex :
    voteCatchHandler (some 11000) "E11000 duplicate key error" = (409, "Already voted") ∧
    400 ≤ (voteCatchHandler (some 11000) "E11000 duplicate key error").1 := by
  decide

/-- C3 amended: every duplicate-key store error (code 11000) caught by the
vote route is mapped to status 409 "Already voted"; the handler has no
retry path, so a same-key conflict on first insert is visible to the
caller as a 409 error. -/
theorem voteCatchHandler_conflict (code : Option Nat) (msg : String)
    (h : code = some 11000) :
    voteCatchHandler code msg = (409, "Already voted") ∧
    400 ≤ (voteCatchHandler code msg).1 := by
  subst h
  refine ⟨rfl, ?_⟩
  show (400 : Nat) ≤ 409
  decide

theorem voteCatchHandler_conflict_witness :
    voteCatchHandler (some 11000) "E11000" = (409, "Already voted") ∧
    400 ≤ (voteCatchHandler (some 11000) "E11000").1 :=
  voteCatchHandler_conflict (some 11000) "E11000" rfl

/-- C2 counterexample: submitting a ballot that carries both non-blank new
text and an existing moment id (`exReqBoth`): a new Moment (id 5) is
appended to the game, but the stored Vote references the supplied id 3,
not the newly created Moment's id 5. -/
theorem submitVote_newText_precedence_cex :
    (submitVote exSt 1 exReqBoth).2.games.map Game.champagneMoments =
      [[{ id := 5, text := "great goal" }], []] ∧
    (submitVote exSt 1 exReqBoth).2.votes.map Vote.champagneMoment =
      [some { eventId := 3, comment := "" }] ∧
    ¬ (submitVote exSt 1 exReqBoth).2.votes.map Vote.champagneMoment =
      [some { eventId := 5, comment := "" }] := by
  decide

/-- C2 amended: whenever the moment selection carries non-blank free text,
a new Moment (with the fresh id and the trimmed text) is appended to the
game; the stored Vote's moment nomination references the newly created
Moment's id only when no existing moment-id reference was supplied — a
supplied eventId takes precedence over the newly created id. -/
theorem submitVote_newText_appends (st : St) (gid : Nat) (req : VoteRequest)
    (g : Game) (cm : MomentInput)
    (hfind : findGame st.games gid = some g)
    (hopen : ¬ g.status = "closed")
    (htok : tokenPresent req.voterToken = true)
    (hname : ¬ jsTrim (req.voterName.getD "") = "")
    (hcm : req.champagneMoment = some cm)
    (htext : ¬ jsTrim (cm.textIfNew.getD "") = "") :
    ∃ v : Vote,
      (submitVote st gid req).1 = .ok v ∧
      findGame (submitVote st gid req).2.games gid =
        some { g with champagneMoments :=
          g.champagneMoments ++ [{ id := st.nextId, text := jsTrim (cm.textIfNew.getD "") }] } ∧
      v.champagneMoment =
        some { eventId := cm.eventId.getD st.nextId, comment := jsTrim (cm.comment.getD "") } := by
  rw [submitVote_eq_admitVote st gid req g hfind hopen htok hname]
  have hfind' : st.games.find? (fun x => x.id == gid) = some g := hfind
  have hgid := List.find?_some hfind'
  simp only [admitVote, champagneOutcome, hcm,
    resolveChampagne_newText cm g.champagneMoments st.nextId htext]
  refine ⟨_, rfl, ?_, ?_⟩
  · exact find?_replaceFirst_self _ _ st.games g hfind' hgid
  · exact findOneAndUpdateVote_fst_champagne _ _ _ _ _ rfl

theorem submitVote_newText_appends_witness :
    ∃ v : Vote,
      (submitVote exSt 1 exReqBoth).1 = .ok v ∧
      findGame (submitVote exSt 1 exReqBoth).2.games 1 =
        some { id := 1, status := "open", champagneMoments := [{ id := 5, text := "great goal" }] } ∧
      v.champagneMoment = some { eventId := 3, comment := "" } := by
  exact submitVote_newText_appends exSt 1 exReqBoth exOpenGame
    { eventId := some 3, textIfNew := some " great goal ", comment := none }
    (by decide) (by decide) (by decide) (by decide) rfl (by decide)

/-- C4 counterexample: a ballot supplying only a moment id (42) that does
not exist in the game is accepted verbatim: the stored Vote references
moment 42 while the game's moment list stays empty, so a stored Vote's
moment reference need not exist in its Game. -/
theorem submitVote_dangling_id_cex :
    (submitVote exSt 1 exReqDangling).2.votes.map Vote.champagneMoment =
      [some { eventId := 42, comment := "" }] ∧
    (submitVote exSt 1 exReqDangling).2.games.map Game.champagneMoments =
      [[], []] := by
  decide

theorem resolveChampagne_clear (cm : MomentInput) (ms : List Moment) (n : Nat)
    (hnoid : cm.eventId = none) (htext : jsTrim (cm.textIfNew.getD "") = "") :
    resolveChampagne cm ms n = (.clear, ms, n) := by
  unfold resolveChampagne
  simp [htext, hnoid]

theorem findOneAndUpdateVote_mom (votes : List Vote) (gid : Nat) (tok : String)
    (u : UpdateDoc) :
    (findOneAndUpdateVote votes gid tok u).1.mom =
      u.momOp.applyTo ((votes.find? (voteKeyMatch gid tok)).bind Vote.mom) := by
  unfold findOneAndUpdateVote
  cases hf : votes.find? (voteKeyMatch gid tok) <;>
    simp [applyUpdate, initFromUpdate]

theorem findOneAndUpdateVote_dod (votes : List Vote) (gid : Nat) (tok : String)
    (u : UpdateDoc) :
    (findOneAndUpdateVote votes gid tok u).1.dod =
      u.dodOp.applyTo ((votes.find? (voteKeyMatch gid tok)).bind Vote.dod) := by
  unfold findOneAndUpdateVote
  cases hf : votes.find? (voteKeyMatch gid tok) <;>
    simp [applyUpdate, initFromUpdate]

theorem findOneAndUpdateVote_champagne (votes : List Vote) (gid : Nat) (tok : String)
    (u : UpdateDoc) :
    (findOneAndUpdateVote votes gid tok u).1.champagneMoment =
      u.champagneOp.applyTo ((votes.find? (voteKeyMatch gid tok)).bind Vote.champagneMoment) := by
  unfold findOneAndUpdateVote
  cases hf : votes.find? (voteKeyMatch gid tok) <;>
    simp [applyUpdate, initFromUpdate]

theorem admitVote_ok (st : St) (game : Game) (gid : Nat) (req : VoteRequest)
    (v : Vote) (st' : St) (h : admitVote st game gid req = (.ok v, st')) :
    v = (findOneAndUpdateVote st.votes game.id (req.voterToken.getD "")
          (buildUpdateDoc req game
            (champagneOutcome req.champagneMoment game.champagneMoments st.nextId).1)).1 ∧
    st'.votes = (findOneAndUpdateVote st.votes game.id (req.voterToken.getD "")
          (buildUpdateDoc req game
            (champagneOutcome req.champagneMoment game.champagneMoments st.nextId).1)).2 := by
  simp only [admitVote, Prod.mk.injEq, SubmitResult.ok.injEq] at h
  refine ⟨h.1.symm, ?_⟩
  rw [← h.2]

/-- C4 amended: a moment reference created from the same request's new text
does exist in the Vote's Game at read time: with no supplied eventId and
non-blank new text, the stored selection's eventId is the id of a Moment of
the updated game. (Caller-supplied eventIds, by contrast, are stored
verbatim without any check — see the counterexample.) -/
theorem submitVote_newMoment_ref_exists (st : St) (gid : Nat) (req : VoteRequest)
    (g : Game) (cm : MomentInput)
    (hfind : findGame st.games gid = some g)
    (hopen : ¬ g.status = "closed")
    (htok : tokenPresent req.voterToken = true)
    (hname : ¬ jsTrim (req.voterName.getD "") = "")
    (hcm : req.champagneMoment = some cm)
    (hnoid : cm.eventId = none)
    (htext : ¬ jsTrim (cm.textIfNew.getD "") = "") :
    ∃ (v : Vote) (sel : MomentSel) (g' : Game),
      (submitVote st gid req).1 = .ok v ∧
      v.champagneMoment = some sel ∧
      findGame (submitVote st gid req).2.games gid = some g' ∧
      sel.eventId ∈ g'.champagneMoments.map Moment.id := by
  rw [submitVote_eq_admitVote st gid req g hfind hopen htok hname]
  have hfind' : st.games.find? (fun x => x.id == gid) = some g := hfind
  have hgid := List.find?_some hfind'
  simp only [admitVote, champagneOutcome, hcm,
    resolveChampagne_newText cm g.champagneMoments st.nextId htext, hnoid,
    Option.getD_none]
  refine ⟨_, { eventId := st.nextId, comment := jsTrim (cm.comment.getD "") },
    { g with champagneMoments :=
      g.champagneMoments ++ [{ id := st.nextId, text := jsTrim (cm.textIfNew.getD "") }] },
    rfl, ?_, ?_, ?_⟩
  · exact findOneAndUpdateVote_fst_champagne _ _ _ _ _ rfl
  · exact find?_replaceFirst_self _ _ st.games g hfind' hgid
  · simp

theorem submitVote_newMoment_ref_exists_witness :
    ∃ (v : Vote) (sel : MomentSel) (g' : Game),
      (submitVote exSt 1 exReqNewText).1 = .ok v ∧
      v.champagneMoment = some sel ∧
      findGame (submitVote exSt 1 exReqNewText).2.games 1 = some g' ∧
      sel.eventId ∈ g'.champagneMoments.map Moment.id :=
  submitVote_newMoment_ref_exists exSt 1 exReqNewText exOpenGame
    { eventId := none, textIfNew := some " top save ", comment := none }
    (by decide) (by decide) (by decide) (by decide) rfl rfl (by decide)

/-- C6: a submission whose nomination for a category normalizes to empty
clears that category from the stored Vote: a present mom/dod entry whose
player is blank after trimming yields no stored value, and a present moment
selection with neither an id nor non-blank new text yields no stored moment
nomination — previous values are not kept and no empty value is stored. -/
theorem submitVote_blank_clears (st : St) (gid : Nat) (req : VoteRequest)
    (g : Game) (v : Vote) (st' : St)
    (hfind : findGame st.games gid = some g)
    (hopen : ¬ g.status = "closed")
    (htok : tokenPresent req.voterToken = true)
    (hname : ¬ jsTrim (req.voterName.getD "") = "")
    (h : submitVote st gid req = (.ok v, st')) :
    (∀ m, req.mom = some m → jsTrim (m.player.getD "") = "" → v.mom = none) ∧
    (∀ m, req.dod = some m → jsTrim (m.player.getD "") = "" → v.dod = none) ∧
    (∀ cm, req.champagneMoment = some cm → cm.eventId = none →
      jsTrim (cm.textIfNew.getD "") = "" → v.champagneMoment = none) := by
  rw [submitVote_eq_admitVote st gid req g hfind hopen htok hname] at h
  obtain ⟨hv, -⟩ := admitVote_ok st g gid req v st' h
  subst hv
  refine ⟨?_, ?_, ?_⟩
  · intro m hm hblank
    rw [findOneAndUpdateVote_mom]
    simp [buildUpdateDoc, categoryOp, hm, formatNomination, hblank, FieldOp.applyTo]
  · intro m hm hblank
    rw [findOneAndUpdateVote_dod]
    simp [buildUpdateDoc, categoryOp, hm, formatNomination, hblank, FieldOp.applyTo]
  · intro cm hcm hnoid htext
    rw [findOneAndUpdateVote_champagne]
    simp [buildUpdateDoc, champagneOutcome, hcm,
      resolveChampagne_clear cm g.champagneMoments st.nextId hnoid htext, FieldOp.applyTo]

theorem submitVote_blank_clears_witness :
    (submitVote exStAfterMomA 1 exReqClear).1 = .ok exVoteCleared ∧
    exVoteCleared.mom = none ∧
    exVoteCleared.champagneMoment = none := by
  have h : submitVote exStAfterMomA 1 exReqClear = (.ok exVoteCleared, exStCleared) := by decide
  have hc := submitVote_blank_clears exStAfterMomA 1 exReqClear exOpenGame
    exVoteCleared exStCleared (by decide) (by decide) (by decide) (by decide) h
  exact ⟨by rw [h], hc.1 _ rfl (by decide), hc.2.2 _ rfl rfl (by decide)⟩

/-- C7: categories absent from a submission are left untouched in the
stored Vote: when the request omits a category, the resulting Vote's field
equals whatever the store previously held for that `(gameId, voter.token)`
key (and stays empty when there was no prior Vote). -/
theorem submitVote_absent_untouched (st : St) (gid : Nat) (req : VoteRequest)
    (g : Game) (v : Vote) (st' : St)
    (hfind : findGame st.games gid = some g)
    (hopen : ¬ g.status = "closed")
    (htok : tokenPresent req.voterToken = true)
    (hname : ¬ jsTrim (req.voterName.getD "") = "")
    (h : submitVote st gid req = (.ok v, st')) :
    (req.mom = none →
      v.mom = (st.votes.find? (voteKeyMatch g.id (req.voterToken.getD ""))).bind Vote.mom) ∧
    (req.dod = none →
      v.dod = (st.votes.find? (voteKeyMatch g.id (req.voterToken.getD ""))).bind Vote.dod) ∧
    (req.champagneMoment = none →
      v.champagneMoment =
        (st.votes.find? (voteKeyMatch g.id (req.voterToken.getD ""))).bind Vote.champagneMoment) := by
  rw [submitVote_eq_admitVote st gid req g hfind hopen htok hname] at h
  obtain ⟨hv, -⟩ := admitVote_ok st g gid req v st' h
  subst hv
  refine ⟨?_, ?_, ?_⟩
  · intro hm
    rw [findOneAndUpdateVote_mom]
    simp [buildUpdateDoc, categoryOp, hm, FieldOp.applyTo]
  · intro hm
    rw [findOneAndUpdateVote_dod]
    simp [buildUpdateDoc, categoryOp, hm, FieldOp.applyTo]
  · intro hcm
    rw [findOneAndUpdateVote_champagne]
    simp [buildUpdateDoc, champagneOutcome, hcm, FieldOp.applyTo]

theorem submitVote_absent_untouched_witness :
    (submitVote exStAfterMomA 1 exReqDodB).1 = .ok exVoteBoth ∧
    exVoteBoth.mom = (exStAfterMomA.votes.find? (voteKeyMatch 1 "tok1")).bind Vote.mom ∧
    exVoteBoth.mom = some { player := "A", comment := "solid" } ∧
    exVoteBoth.dod = some { player := "B", comment := "" } := by
  have h : submitVote exStAfterMomA 1 exReqDodB = (.ok exVoteBoth, exStBoth) := by decide
  have hc := submitVote_absent_untouched exStAfterMomA 1 exReqDodB exOpenGame
    exVoteBoth exStBoth (by decide) (by decide) (by decide) (by decide) h
  exact ⟨by rw [h], hc.1 rfl, by decide, by decide⟩

theorem voteKeyMatch_eq (gid : Nat) (tok : String) (x : Vote)
    (h : voteKeyMatch gid tok x = true) : x.gameId = gid ∧ x.voterToken = tok := by
  simp [voteKeyMatch] at h
  exact h

theorem submitVote_match_some (st : St) (gid : Nat) (req : VoteRequest) (g : Game)
    (hfind : findGame st.games gid = some g) :
    submitVote st gid req =
      if g.status = "closed" then (.votingClosed, st)
      else if !(tokenPresent req.voterToken) || jsTrim (req.voterName.getD "") == "" then
        (.validationError, st)
      else admitVote st g gid req := by
  unfold submitVote
  rw [hfind]

theorem admitVote_isOk (st : St) (game : Game) (gid : Nat) (req : VoteRequest) :
    ∃ (v : Vote) (st' : St), admitVote st game gid req = (.ok v, st') :=
  ⟨_, _, rfl⟩

theorem admitVote_unique (st : St) (game : Game) (gid : Nat) (req : VoteRequest)
    (v : Vote) (st' : St)
    (hinv : UniqueVoteKeys st.votes)
    (h : admitVote st game gid req = (.ok v, st')) :
    UniqueVoteKeys st'.votes ∧
    st'.votes.filter (voteKeyMatch game.id (req.voterToken.getD "")) = [v] := by
  obtain ⟨hv, hvotes⟩ := admitVote_ok st game gid req v st' h
  set tok := req.voterToken.getD "" with htokdef
  set u := buildUpdateDoc req game
    (champagneOutcome req.champagneMoment game.champagneMoments st.nextId).1 with hudef
  have hugid : u.gameId = game.id := by simp [hudef, buildUpdateDoc]
  have hutok : u.voterToken = tok := by simp [hudef, buildUpdateDoc]
  cases hf : st.votes.find? (voteKeyMatch game.id tok) with
  | some w =>
    rw [findOneAndUpdateVote_found st.votes game.id tok u w hf] at hv hvotes
    have hpres : ∀ x ∈ st.votes, voteKeyMatch game.id tok x = true →
        ∀ gid' tok', voteKeyMatch gid' tok' (applyUpdate u x) = voteKeyMatch gid' tok' x := by
      intro x hx hkey gid' tok'
      obtain ⟨h1, h2⟩ := voteKeyMatch_eq _ _ _ hkey
      simp [voteKeyMatch, applyUpdate, hugid, hutok, h1, h2]
    have hcount : ∀ gid' tok', keyCount st'.votes gid' tok' = keyCount st.votes gid' tok' := by
      intro gid' tok'
      rw [hvotes]
      exact countP_replaceFirst _ _ _ st.votes (fun x hx hkey => hpres x hx hkey gid' tok')
    have hwkey : voteKeyMatch game.id tok w = true := List.find?_some hf
    have hwmem : w ∈ st.votes := List.mem_of_find?_eq_some hf
    have hge1 : 1 ≤ keyCount st.votes game.id tok :=
      List.countP_pos_iff.mpr ⟨w, hwmem, hwkey⟩
    have heq1 : keyCount st'.votes game.id tok = 1 := by
      rw [hcount]
      exact le_antisymm (hinv game.id tok) hge1
    have hvkey : voteKeyMatch game.id tok v = true := by
      rw [hv]
      simp [voteKeyMatch, applyUpdate, hugid, hutok]
    have hvmem : v ∈ st'.votes := by
      rw [hvotes, hv]
      exact mem_replaceFirst_of_find? _ _ st.votes w hf
    refine ⟨?_, ?_⟩
    · intro gid' tok'
      rw [hcount]
      exact hinv gid' tok'
    · exact filter_eq_singleton_of_countP _ st'.votes v heq1 hvmem hvkey
  | none =>
    rw [findOneAndUpdateVote_not_found st.votes game.id tok u hf] at hv hvotes
    have hzero : List.countP (voteKeyMatch game.id tok) st.votes = 0 :=
      List.countP_eq_zero.mpr (by
        intro x hx
        simpa using List.find?_eq_none.mp hf x hx)
    have hinitkey : voteKeyMatch game.id tok (initFromUpdate u) = true := by
      simp [voteKeyMatch, initFromUpdate, hugid, hutok]
    have hcnt1 : (st.votes ++ [initFromUpdate u]).countP (voteKeyMatch game.id tok) = 1 := by
      rw [List.countP_append, hzero]
      simp [hinitkey]
    refine ⟨?_, ?_⟩
    · intro gid' tok'
      rw [hvotes, keyCount, List.countP_append]
      by_cases hq : voteKeyMatch gid' tok' (initFromUpdate u) = true
      · obtain ⟨h1, h2⟩ := voteKeyMatch_eq _ _ _ hq
        have hg' : gid' = game.id := by
          rw [← h1]
          simp [initFromUpdate, hugid]
        have ht' : tok' = tok := by
          rw [← h2]
          simp [initFromUpdate, hutok]
        subst hg'
        subst ht'
        rw [hzero]
        simp [hinitkey]
      · have h0 : List.countP (voteKeyMatch gid' tok') [initFromUpdate u] = 0 := by
          simp only [List.countP_cons, List.countP_nil]
          simp [hq]
        rw [h0]
        simpa using hinv gid' tok'
    · rw [hvotes, hv]
      exact filter_eq_singleton_of_countP _ _ _ hcnt1 (by simp) hinitkey

/-- C1: at most one stored Vote per `(gameId, voter.token)` pair: submitVote
preserves the unique-key invariant of the vote store, and a successful
submission leaves exactly one stored Vote for the submitting voter's key —
the returned, post-merge one — with the later submission's content winning
for the mom/dod fields it sets; resubmission amends the existing Vote in
place and never creates a second row. -/
theorem submitVote_unique_key (st : St) (gid : Nat) (req : VoteRequest)
    (r : SubmitResult) (st' : St)
    (hinv : UniqueVoteKeys st.votes)
    (h : submitVote st gid req = (r, st')) :
    UniqueVoteKeys st'.votes ∧
    ∀ v, r = .ok v → ∃ g : Game,
      findGame st.games gid = some g ∧
      st'.votes.filter (voteKeyMatch g.id (req.voterToken.getD "")) = [v] ∧
      (∀ m n, req.mom = some m → formatNomination (some m) = some n → v.mom = some n) ∧
      (∀ m n, req.dod = some m → formatNomination (some m) = some n → v.dod = some n) := by
  cases hfind : findGame st.games gid with
  | none =>
    unfold submitVote at h
    rw [hfind] at h
    simp only [Prod.mk.injEq] at h
    obtain ⟨hr, hst⟩ := h
    rw [← hst]
    refine ⟨hinv, ?_⟩
    intro v hv
    rw [← hr] at hv
    exact absurd hv (by simp)
  | some g =>
    rw [submitVote_match_some st gid req g hfind] at h
    by_cases hclosed : g.status = "closed"
    · rw [if_pos hclosed] at h
      simp only [Prod.mk.injEq] at h
      obtain ⟨hr, hst⟩ := h
      rw [← hst]
      refine ⟨hinv, ?_⟩
      intro v hv
      rw [← hr] at hv
      exact absurd hv (by simp)
    · rw [if_neg hclosed] at h
      by_cases hval :
          (!tokenPresent req.voterToken || jsTrim (req.voterName.getD "") == "") = true
      · rw [if_pos hval] at h
        simp only [Prod.mk.injEq] at h
        obtain ⟨hr, hst⟩ := h
        rw [← hst]
        refine ⟨hinv, ?_⟩
        intro v hv
        rw [← hr] at hv
        exact absurd hv (by simp)
      · rw [if_neg hval] at h
        cases r with
        | ok v =>
          obtain ⟨huniq, hfilter⟩ := admitVote_unique st g gid req v st' hinv h
          refine ⟨huniq, ?_⟩
          intro v' hv'
          cases hv'
          refine ⟨g, rfl, hfilter, ?_, ?_⟩
          · intro m n hm hn
            obtain ⟨hveq, -⟩ := admitVote_ok st g gid req v st' h
            rw [hveq, findOneAndUpdateVote_mom]
            simp [buildUpdateDoc, categoryOp, hm, hn, FieldOp.applyTo]
          · intro m n hm hn
            obtain ⟨hveq, -⟩ := admitVote_ok st g gid req v st' h
            rw [hveq, findOneAndUpdateVote_dod]
            simp [buildUpdateDoc, categoryOp, hm, hn, FieldOp.applyTo]
        | notFound =>
          obtain ⟨v0, st0, heq⟩ := admitVote_isOk st g gid req
          rw [heq] at h
          simp at h
        | votingClosed =>
          obtain ⟨v0, st0, heq⟩ := admitVote_isOk st g gid req
          rw [heq] at h
          simp at h
        | validationError =>
          obtain ⟨v0, st0, heq⟩ := admitVote_isOk st g gid req
          rw [heq] at h
          simp at h

theorem submitVote_unique_key_witness :
    UniqueVoteKeys exStAfterMomA.votes ∧
    ∀ v, SubmitResult.ok exVoteMomA = SubmitResult.ok v → ∃ g : Game,
      findGame exStAfterMomA.games 1 = some g ∧
      exStAfterMomA.votes.filter (voteKeyMatch g.id (exReqMomA.voterToken.getD "")) = [v] ∧
      (∀ m n, exReqMomA.mom = some m → formatNomination (some m) = some n → v.mom = some n) ∧
      (∀ m n, exReqMomA.dod = some m → formatNomination (some m) = some n → v.dod = some n) := by
  have hinv : UniqueVoteKeys exStAfterMomA.votes := fun gid tok =>
    le_trans (List.countP_le_length _) (by decide)
  have h : submitVote exStAfterMomA 1 exReqMomA = (.ok exVoteMomA, exStAfterMomA) := by
    decide
  exact submitVote_unique_key exStAfterMomA 1 exReqMomA (.ok exVoteMomA) exStAfterMomA hinv h

theorem player_not_mem_of_find?_none (acc : List TallyEntry) (p : String)
    (h : acc.find? (fun e => e.player == p) = none) :
    p ∉ acc.map TallyEntry.player := by
  intro hmem
  obtain ⟨e, he, hep⟩ := List.mem_map.mp hmem
  have := List.find?_eq_none.mp h e he
  simp [hep] at this

theorem tallyStep_skip_none (field : Vote → Option Nomination) (acc : List TallyEntry)
    (v : Vote) (hf : field v = none) : tallyStep field acc v = acc := by
  unfold tallyStep
  rw [hf]

theorem tallyStep_skip_blank (field : Vote → Option Nomination) (acc : List TallyEntry)
    (v : Vote) (entry : Nomination) (hf : field v = some entry)
    (hp0 : entry.player = "") : tallyStep field acc v = acc := by
  unfold tallyStep
  rw [hf]
  simp [hp0]

theorem tallyStep_found (field : Vote → Option Nomination) (acc : List TallyEntry)
    (v : Vote) (entry : Nomination) (w : TallyEntry)
    (hf : field v = some entry) (hp0 : ¬ entry.player = "")
    (hfind : acc.find? (fun e => e.player == entry.player) = some w) :
    tallyStep field acc v =
      replaceFirst (fun e => e.player == entry.player)
        (fun e =>
          { e with
            count := e.count + 1
            comments := pushComment e.comments (jsTrim entry.comment) }) acc := by
  unfold tallyStep
  rw [hf]
  simp [hp0, hfind]

theorem tallyStep_new (field : Vote → Option Nomination) (acc : List TallyEntry)
    (v : Vote) (entry : Nomination)
    (hf : field v = some entry) (hp0 : ¬ entry.player = "")
    (hfind : acc.find? (fun e => e.player == entry.player) = none) :
    tallyStep field acc v =
      acc ++ [{ player := entry.player, count := 1, comments := pushComment [] (jsTrim entry.comment) }] := by
  unfold tallyStep
  rw [hf]
  simp [hp0, hfind]

theorem tallyStep_wf (field : Vote → Option Nomination) (acc : List TallyEntry) (v : Vote)
    (hnodup : (acc.map TallyEntry.player).Nodup)
    (hne : ∀ e ∈ acc, ¬ e.player = "") :
    ((tallyStep field acc v).map TallyEntry.player).Nodup ∧
    ∀ e ∈ tallyStep field acc v, ¬ e.player = "" := by
  cases hf : field v with
  | none =>
    rw [tallyStep_skip_none field acc v hf]
    exact ⟨hnodup, hne⟩
  | some entry =>
    by_cases hp0 : entry.player = ""
    · rw [tallyStep_skip_blank field acc v entry hf hp0]
      exact ⟨hnodup, hne⟩
    · cases hfind : acc.find? (fun e => e.player == entry.player) with
      | some w =>
        rw [tallyStep_found field acc v entry w hf hp0 hfind]
        constructor
        · rw [map_replaceFirst (fun e => e.player == entry.player)
            (fun e =>
              { e with
                count := e.count + 1
                comments := pushComment e.comments (jsTrim entry.comment) })
            TallyEntry.player (fun x => rfl) acc]
          exact hnodup
        · intro e he
          rcases mem_of_mem_replaceFirst _ _ _ _ he with h | ⟨y, hy, hey⟩
          · exact hne e h
          · rw [hey]
            exact hne y hy
      | none =>
        rw [tallyStep_new field acc v entry hf hp0 hfind]
        constructor
        · rw [List.map_append]
          refine List.Nodup.append hnodup (by simp) ?_
          simp only [List.map_cons, List.map_nil]
          rw [List.disjoint_singleton]
          exact player_not_mem_of_find?_none acc entry.player hfind
        · intro e he
          rcases List.mem_append.mp he with h | h
          · exact hne e h
          · simp only [List.mem_singleton] at h
            rw [h]
            exact hp0

theorem tallyFold_wf (field : Vote → Option Nomination) :
    ∀ (votes : List Vote) (acc : List TallyEntry),
      (acc.map TallyEntry.player).Nodup → (∀ e ∈ acc, ¬ e.player = "") →
      ((votes.foldl (tallyStep field) acc).map TallyEntry.player).Nodup ∧
      ∀ e ∈ votes.foldl (tallyStep field) acc, ¬ e.player = ""
  | [], _, h1, h2 => ⟨h1, h2⟩
  | v :: vs, acc, h1, h2 => by
    obtain ⟨h1', h2'⟩ := tallyStep_wf field acc v h1 h2
    exact tallyFold_wf field vs (tallyStep field acc v) h1' h2'

theorem tallyStep_count (field : Vote → Option Nomination) (acc : List TallyEntry)
    (v : Vote) (p : String) (hp : ¬ p = "") :
    entryCount (tallyStep field acc v) p =
      entryCount acc p + (if nomPlayer (field v) == p then 1 else 0) := by
  cases hf : field v with
  | none =>
    have hb : (nomPlayer none == p) = false := by
      simp only [nomPlayer, beq_eq_false_iff_ne, ne_eq]
      exact fun h => hp h.symm
    rw [tallyStep_skip_none field acc v hf, hb, if_neg (by simp)]
    simp
  | some entry =>
    by_cases hp0 : entry.player = ""
    · have hb : (nomPlayer (some entry) == p) = false := by
        simp only [nomPlayer, hp0, beq_eq_false_iff_ne, ne_eq]
        exact fun h => hp h.symm
      rw [tallyStep_skip_blank field acc v entry hf hp0, hb, if_neg (by simp)]
      simp
    · by_cases hep : entry.player = p
      · subst hep
        have hb : (nomPlayer (some entry) == entry.player) = true := by
          simp [nomPlayer]
        rw [hb, if_pos rfl]
        cases hfind : acc.find? (fun e => e.player == entry.player) with
        | some w =>
          have hfw := List.find?_some hfind
          rw [tallyStep_found field acc v entry w hf hp0 hfind]
          unfold entryCount
          rw [find?_replaceFirst_self _ _ acc w hfind (by simpa using hfw), hfind]
        | none =>
          rw [tallyStep_new field acc v entry hf hp0 hfind]
          unfold entryCount
          rw [List.find?_append, hfind]
          simp
      · have hb : (nomPlayer (some entry) == p) = false := by
          simp only [nomPlayer, beq_eq_false_iff_ne, ne_eq]
          exact hep
        rw [hb, if_neg (by simp)]
        cases hfind : acc.find? (fun e => e.player == entry.player) with
        | some w =>
          have hfw := List.find?_some hfind
          have hwp : w.player = entry.player := by simpa using hfw
          have hqw : ((fun e => e.player == p) w) = false := by
            simp only [hwp, beq_eq_false_iff_ne, ne_eq]
            exact hep
          rw [tallyStep_found field acc v entry w hf hp0 hfind]
          unfold entryCount
          rw [find?_replaceFirst_other _ _ _ acc w hfind hqw (by simpa using hqw)]
          simp
        | none =>
          rw [tallyStep_new field acc v entry hf hp0 hfind]
          unfold entryCount
          rw [List.find?_append]
          have hXp : (({ player := entry.player, count := 1, comments := pushComment [] (jsTrim entry.comment) } : TallyEntry).player == p) = false := by
            simp only [beq_eq_false_iff_ne, ne_eq]
            exact hep
          rw [List.find?_cons_of_neg _ (by simp [hXp]), List.find?_nil, Option.or_none]
          cases hfa : acc.find? (fun e => e.player == p) <;> simp [hfa]

theorem tallyFold_count (field : Vote → Option Nomination) :
    ∀ (votes : List Vote) (acc : List TallyEntry) (p : String), ¬ p = "" →
      entryCount (votes.foldl (tallyStep field) acc) p =
        entryCount acc p + votes.countP (fun v => nomPlayer (field v) == p)
  | [], acc, p, _ => by simp
  | v :: vs, acc, p, hp => by
    have ih := tallyFold_count field vs (tallyStep field acc v) p hp
    have hstep := tallyStep_count field acc v p hp
    calc entryCount ((v :: vs).foldl (tallyStep field) acc) p
        = entryCount (vs.foldl (tallyStep field) (tallyStep field acc v)) p := rfl
      _ = entryCount (tallyStep field acc v) p
            + vs.countP (fun w => nomPlayer (field w) == p) := ih
      _ = entryCount acc p + (v :: vs).countP (fun w => nomPlayer (field w) == p) := by
            rw [hstep, List.countP_cons]
            omega

theorem find?_player_of_mem :
    ∀ (acc : List TallyEntry) (e : TallyEntry), e ∈ acc →
      (acc.map TallyEntry.player).Nodup →
      acc.find? (fun x => x.player == e.player) = some e
  | [], e, he, _ => absurd he (List.not_mem_nil e)
  | x :: xs, e, he, hnodup => by
    rcases List.mem_cons.mp he with rfl | hmem
    · rw [List.find?_cons_of_pos _ (by simp)]
    · have hnd := hnodup
      simp only [List.map_cons, List.nodup_cons] at hnd
      have hx : ¬ x.player = e.player := by
        intro hcontra
        exact hnd.1 (hcontra ▸ List.mem_map_of_mem TallyEntry.player hmem)
      rw [List.find?_cons_of_neg _ (by simp [hx])]
      exact find?_player_of_mem xs e hmem hnd.2

/-- C8: the mom and dod tallies group votes that carry a non-empty
nomination by exact player name (each player at most once), count
occurrences, and are sorted descending by count with ties broken by
ascending lexicographic player name; on the concrete tie
mom B, B, A, A the entry for A precedes the one for B. `buildTally` is a
pure function of the vote list, so the result is determined by the game's
vote set alone. -/
theorem buildTally_spec (field : Vote → Option Nomination) (votes : List Vote) :
    ((buildTally field votes).map TallyEntry.player).Nodup ∧
    (∀ e ∈ buildTally field votes, ¬ e.player = "" ∧
      e.count = votes.countP (fun v => nomPlayer (field v) == e.player)) ∧
    (∀ v ∈ votes, ¬ nomPlayer (field v) = "" →
      ∃ e ∈ buildTally field votes, e.player = nomPlayer (field v)) ∧
    List.Sorted tallyOrder (buildTally field votes) ∧
    buildTally Vote.mom
        [exMomVote "1" "B", exMomVote "2" "B", exMomVote "3" "A", exMomVote "4" "A"] =
      [{ player := "A", count := 2, comments := [] },
       { player := "B", count := 2, comments := [] }] := by
  obtain ⟨hnodup0, hne0⟩ := tallyFold_wf field votes [] (by simp) (by simp)
  have hperm : List.Perm (buildTally field votes) (votes.foldl (tallyStep field) []) :=
    List.perm_insertionSort _ _
  refine ⟨?_, ?_, ?_, ?_, ?_⟩
  · exact (hperm.map TallyEntry.player).nodup_iff.mpr hnodup0
  · intro e he
    have he0 : e ∈ votes.foldl (tallyStep field) [] := hperm.mem_iff.mp he
    refine ⟨hne0 e he0, ?_⟩
    have hcnt := tallyFold_count field votes [] e.player (hne0 e he0)
    have hfind := find?_player_of_mem _ e he0 hnodup0
    unfold entryCount at hcnt
    rw [hfind] at hcnt
    simpa using hcnt
  · intro v hv hnp
    have hpos : 0 < votes.countP (fun w => nomPlayer (field w) == nomPlayer (field v)) :=
      List.countP_pos_iff.mpr ⟨v, hv, by simp⟩
    have hcnt := tallyFold_count field votes [] (nomPlayer (field v)) hnp
    unfold entryCount at hcnt
    cases hfind : (votes.foldl (tallyStep field) []).find?
        (fun x => x.player == nomPlayer (field v)) with
    | none =>
      rw [hfind] at hcnt
      simp at hcnt
      omega
    | some e =>
      have hmem : e ∈ votes.foldl (tallyStep field) [] := List.mem_of_find?_eq_some hfind
      have hep : e.player = nomPlayer (field v) := by simpa using List.find?_some hfind
      exact ⟨e, hperm.mem_iff.mpr hmem, hep⟩
  · exact List.sorted_insertionSort tallyOrder _
  · decide

theorem buildTally_spec_witness :
    buildTally Vote.mom
        [exMomVote "1" "B", exMomVote "2" "B", exMomVote "3" "A", exMomVote "4" "A"] =
      [{ player := "A", count := 2, comments := [] },
       { player := "B", count := 2, comments := [] }] :=
  (buildTally_spec Vote.mom
    [exMomVote "1" "B", exMomVote "2" "B", exMomVote "3" "A", exMomVote "4" "A"]).2.2.2.2

theorem champStep_none (acc : List ChampEntry) (v : Vote)
    (hv : v.champagneMoment = none) : champStep acc v = acc := by
  unfold champStep
  rw [hv]

theorem champStep_sel (acc : List ChampEntry) (v : Vote) (sel : MomentSel)
    (hv : v.champagneMoment = some sel) :
    champStep acc v =
      replaceFirst (fun e => e.id == sel.eventId)
        (fun e =>
          { e with
            votes := e.votes + 1
            comments := pushComment e.comments (jsTrim sel.comment) }) acc := by
  unfold champStep
  rw [hv]

theorem champStep_ids (acc : List ChampEntry) (v : Vote) :
    (champStep acc v).map ChampEntry.id = acc.map ChampEntry.id := by
  cases hv : v.champagneMoment with
  | none => rw [champStep_none acc v hv]
  | some sel =>
    rw [champStep_sel acc v sel hv]
    exact map_replaceFirst (fun e => e.id == sel.eventId)
      (fun e =>
        { e with
          votes := e.votes + 1
          comments := pushComment e.comments (jsTrim sel.comment) })
      ChampEntry.id (fun x => rfl) acc

theorem champFold_ids : ∀ (votes : List Vote) (acc : List ChampEntry),
    (votes.foldl champStep acc).map ChampEntry.id = acc.map ChampEntry.id
  | [], _ => rfl
  | v :: vs, acc => by
    rw [List.foldl_cons, champFold_ids vs (champStep acc v), champStep_ids]

theorem champInit_ids (g : Game) :
    (champInit g).map ChampEntry.id = g.champagneMoments.map Moment.id := by
  unfold champInit
  rw [List.map_map]
  rfl

theorem champInit_votes (g : Game) (i : Nat) : champEntryVotes (champInit g) i = 0 := by
  unfold champEntryVotes
  cases hf : (champInit g).find? (fun e => e.id == i) with
  | none => rfl
  | some e =>
    have hmem := List.mem_of_find?_eq_some hf
    unfold champInit at hmem
    obtain ⟨m, _, hme⟩ := List.mem_map.mp hmem
    rw [← hme]

theorem champStep_mem (acc : List ChampEntry) (v : Vote) (e : ChampEntry)
    (he : e ∈ champStep acc v) : ∃ e0 ∈ acc, e0.id = e.id ∧ e0.text = e.text := by
  cases hv : v.champagneMoment with
  | none =>
    rw [champStep_none acc v hv] at he
    exact ⟨e, he, rfl, rfl⟩
  | some sel =>
    rw [champStep_sel acc v sel hv] at he
    rcases mem_of_mem_replaceFirst _ _ _ _ he with h | ⟨y, hy, hey⟩
    · exact ⟨e, h, rfl, rfl⟩
    · exact ⟨y, hy, by rw [hey], by rw [hey]⟩

theorem champFold_mem : ∀ (votes : List Vote) (acc : List ChampEntry) (e : ChampEntry),
    e ∈ votes.foldl champStep acc → ∃ e0 ∈ acc, e0.id = e.id ∧ e0.text = e.text
  | [], _, e, he => ⟨e, he, rfl, rfl⟩
  | v :: vs, acc, e, he => by
    obtain ⟨e1, he1, h1, h2⟩ := champFold_mem vs (champStep acc v) e he
    obtain ⟨e0, he0, h3, h4⟩ := champStep_mem acc v e1 he1
    exact ⟨e0, he0, h3.trans h1, h4.trans h2⟩

theorem champStep_skip (acc : List ChampEntry) (v : Vote) (sel : MomentSel)
    (hsel : v.champagneMoment = some sel)
    (hnot : sel.eventId ∉ acc.map ChampEntry.id) :
    champStep acc v = acc := by
  rw [champStep_sel acc v sel hsel]
  apply replaceFirst_of_forall_not
  intro x hx
  simp only [beq_eq_false_iff_ne, ne_eq]
  intro hcontra
  exact hnot (hcontra ▸ List.mem_map_of_mem ChampEntry.id hx)

theorem champStep_votes_mem (acc : List ChampEntry) (v : Vote) (i : Nat)
    (hmem : i ∈ acc.map ChampEntry.id) :
    champEntryVotes (champStep acc v) i =
      champEntryVotes acc i + (if voteSelectsB i v then 1 else 0) := by
  obtain ⟨e0, he0, hei⟩ := List.mem_map.mp hmem
  have hfindsome : ∃ w, acc.find? (fun x => x.id == i) = some w := by
    cases hfa : acc.find? (fun x => x.id == i) with
    | some w => exact ⟨w, rfl⟩
    | none =>
      have := List.find?_eq_none.mp hfa e0 he0
      simp [hei] at this
  obtain ⟨w, hw⟩ := hfindsome
  cases hv : v.champagneMoment with
  | none =>
    have hsel : voteSelectsB i v = false := by
      unfold voteSelectsB
      rw [hv]
    rw [champStep_none acc v hv, hsel, if_neg (by simp)]
    simp
  | some sel =>
    have hselB : voteSelectsB i v = (sel.eventId == i) := by
      unfold voteSelectsB
      rw [hv]
    by_cases heq : sel.eventId = i
    · subst heq
      rw [champStep_sel acc v sel hv]
      unfold champEntryVotes
      rw [find?_replaceFirst_self _ _ acc w hw (by simpa using List.find?_some hw), hw,
        hselB]
      simp
    · have hbe : (sel.eventId == i) = false := by
        simp only [beq_eq_false_iff_ne, ne_eq]
        exact heq
      rw [champStep_sel acc v sel hv]
      unfold champEntryVotes
      cases hfs : acc.find? (fun e => e.id == sel.eventId) with
      | none =>
        have hall : ∀ x ∈ acc, ((fun e => e.id == sel.eventId) x) = false := by
          intro x hx
          simpa using List.find?_eq_none.mp hfs x hx
        rw [replaceFirst_of_forall_not _ _ acc hall, hselB, hbe]
        simp
      | some w2 =>
        have hqw2 : ((fun e => e.id == i) w2) = false := by
          have hw2 : w2.id = sel.eventId := by simpa using List.find?_some hfs
          simp only [hw2]
          exact hbe
        rw [find?_replaceFirst_other _ _ _ acc w2 hfs hqw2 (by simpa using hqw2), hselB, hbe]
        simp

theorem champFold_votes : ∀ (votes : List Vote) (acc : List ChampEntry) (i : Nat),
    i ∈ acc.map ChampEntry.id →
    champEntryVotes (votes.foldl champStep acc) i =
      champEntryVotes acc i + votes.countP (voteSelectsB i)
  | [], _, _, _ => by simp
  | v :: vs, acc, i, hmem => by
    have hmem' : i ∈ (champStep acc v).map ChampEntry.id := by
      rw [champStep_ids]
      exact hmem
    have ih := champFold_votes vs (champStep acc v) i hmem'
    have hstep := champStep_votes_mem acc v i hmem
    calc champEntryVotes ((v :: vs).foldl champStep acc) i
        = champEntryVotes (vs.foldl champStep (champStep acc v)) i := rfl
      _ = champEntryVotes (champStep acc v) i + vs.countP (voteSelectsB i) := ih
      _ = champEntryVotes acc i + (v :: vs).countP (voteSelectsB i) := by
          rw [hstep, List.countP_cons]
          omega

theorem find?_champ_of_mem :
    ∀ (acc : List ChampEntry) (e : ChampEntry), e ∈ acc →
      (acc.map ChampEntry.id).Nodup →
      acc.find? (fun x => x.id == e.id) = some e
  | [], e, he, _ => absurd he (List.not_mem_nil e)
  | x :: xs, e, he, hnodup => by
    rcases List.mem_cons.mp he with rfl | hmem
    · rw [List.find?_cons_of_pos _ (by simp)]
    · have hnd := hnodup
      simp only [List.map_cons, List.nodup_cons] at hnd
      have hx : ¬ x.id = e.id := by
        intro hcontra
        exact hnd.1 (hcontra ▸ List.mem_map_of_mem ChampEntry.id hmem)
      rw [List.find?_cons_of_neg _ (by simp [hx])]
      exact find?_champ_of_mem xs e hmem hnd.2

/-- C9: the champagne-moment tally contains every Moment of the game
exactly once — zero-vote moments included — with its text, with count
equal to the number of stored Votes referencing that Moment's id, sorted
descending by count with ties broken by ascending lexicographic moment
text. Hypothesis: the game's moment ids are distinct, which Mongo
guarantees for generated subdocument ids (and which makes the list model
of the handler's id-keyed `Map` exact). -/
theorem champagneResults_spec (g : Game) (votes : List Vote)
    (hnodup : (g.champagneMoments.map Moment.id).Nodup) :
    List.Perm ((champagneResults g votes).map ChampEntry.id)
      (g.champagneMoments.map Moment.id) ∧
    (∀ e ∈ champagneResults g votes,
      (∃ m ∈ g.champagneMoments, m.id = e.id ∧ m.text = e.text) ∧
      e.votes = votes.countP (voteSelectsB e.id)) ∧
    (∀ m ∈ g.champagneMoments, ∃ e ∈ champagneResults g votes, e.id = m.id) ∧
    List.Sorted champOrder (champagneResults g votes) ∧
    champagneResults exGame3 [exSelVote "1" 11, exSelVote "2" 11, exSelVote "3" 12] =
      [{ id := 11, text := "a", votes := 2, comments := ["wow", "wow"] },
       { id := 12, text := "b", votes := 1, comments := ["wow"] },
       { id := 10, text := "c", votes := 0, comments := [] }] := by
  have hids : (votes.foldl champStep (champInit g)).map ChampEntry.id =
      g.champagneMoments.map Moment.id := by
    rw [champFold_ids, champInit_ids]
  have hperm : List.Perm (champagneResults g votes) (votes.foldl champStep (champInit g)) :=
    List.perm_insertionSort _ _
  have hnodup' : ((votes.foldl champStep (champInit g)).map ChampEntry.id).Nodup := by
    rw [hids]
    exact hnodup
  refine ⟨?_, ?_, ?_, ?_, ?_⟩
  · exact hids ▸ hperm.map ChampEntry.id
  · intro e he
    have he0 : e ∈ votes.foldl champStep (champInit g) := hperm.mem_iff.mp he
    constructor
    · obtain ⟨e0, he0', hid, htext⟩ := champFold_mem votes (champInit g) e he0
      unfold champInit at he0'
      obtain ⟨m, hm, hme⟩ := List.mem_map.mp he0'
      exact ⟨m, hm, by rw [← hid, ← hme], by rw [← htext, ← hme]⟩
    · have hmemInit : e.id ∈ (champInit g).map ChampEntry.id := by
        rw [champInit_ids, ← hids]
        exact List.mem_map_of_mem _ he0
      have hcnt := champFold_votes votes (champInit g) e.id hmemInit
      rw [champInit_votes] at hcnt
      have hfind := find?_champ_of_mem _ e he0 hnodup'
      unfold champEntryVotes at hcnt
      rw [hfind] at hcnt
      simpa using hcnt
  · intro m hm
    have hmem : m.id ∈ (votes.foldl champStep (champInit g)).map ChampEntry.id := by
      rw [hids]
      exact List.mem_map_of_mem _ hm
    obtain ⟨e, he, hei⟩ := List.mem_map.mp hmem
    exact ⟨e, hperm.mem_iff.mpr he, hei⟩
  · exact List.sorted_insertionSort champOrder _
  · decide

theorem champagneResults_spec_witness :
    champagneResults exGame3 [exSelVote "1" 11, exSelVote "2" 11, exSelVote "3" 12] =
      [{ id := 11, text := "a", votes := 2, comments := ["wow", "wow"] },
       { id := 12, text := "b", votes := 1, comments := ["wow"] },
       { id := 10, text := "c", votes := 0, comments := [] }] :=
  (champagneResults_spec exGame3 [exSelVote "1" 11] (by decide)).2.2.2.2

/-- C10: a stored Vote whose moment eventId matches no Moment of the game
is silently skipped by the results computation: removing it from the vote
list leaves the champagne tally unchanged, so it contributes to no
moment's count or comment list and does not make the tally fail. -/
theorem champagneResults_dangling_skipped (g : Game) (votes1 votes2 : List Vote)
    (v : Vote) (sel : MomentSel)
    (hsel : v.champagneMoment = some sel)
    (hdangling : sel.eventId ∉ g.champagneMoments.map Moment.id) :
    champagneResults g (votes1 ++ v :: votes2) = champagneResults g (votes1 ++ votes2) := by
  have hids : (votes1.foldl champStep (champInit g)).map ChampEntry.id =
      g.champagneMoments.map Moment.id := by
    rw [champFold_ids, champInit_ids]
  have hskip : champStep (votes1.foldl champStep (champInit g)) v =
      votes1.foldl champStep (champInit g) := by
    refine champStep_skip _ v sel hsel ?_
    rw [hids]
    exact hdangling
  unfold champagneResults
  rw [List.foldl_append, List.foldl_cons, hskip, ← List.foldl_append]

theorem champagneResults_dangling_skipped_witness :
    champagneResults exGame3 [exSelVote "1" 11, exSelVote "2" 99] =
      champagneResults exGame3 [exSelVote "1" 11] :=
  champagneResults_dangling_skipped exGame3 [exSelVote "1" 11] [] (exSelVote "2" 99)
    { eventId := 99, comment := " wow " } rfl (by decide)
